import Mathlib

/-!
Verification development for the deriva-groups TTL-aware key-value store.

The repository provides two interchangeable storage backends over the same
logical table `deriva_groups (key TEXT PRIMARY KEY, value BLOB, expires_at REAL)`:
`SQLiteBackend` (embedded file, thread-local connections) and
`PostgreSQLBackend` (pooled network connections, prepared statements).

We embed the logical content of both backends shallowly:
* the table is a list of records (primary-key uniqueness is carried as a
  `Nodup` hypothesis where a theorem needs it);
* `time.time()` becomes an explicit rational parameter `now`;
* values (`Union[str, bytes]`) become `PyValue`, with the `str.encode()`
  branch modelled by UTF-8 encoding;
* Python's `int()` applied to a real number becomes `pyInt` (truncation
  toward zero);
* `fnmatch.fnmatch` becomes `fnmatch`, a shell-glob matcher with `*`, `?`
  and `[...]` (incl. `[!...]` negation and `a-b` ranges, and the literal
  treatment of an unclosed `[`), matching CPython's `fnmatch.translate`
  on a case-sensitive platform;
* every method is a state-passing function `… → Store → result × Store`
  (methods that only read return their store argument unchanged).
-/

set_option autoImplicit false

/-- One row of the `deriva_groups` table: `key TEXT PRIMARY KEY`,
`value BLOB`, `expires_at REAL` (nullable; seconds since epoch). -/
structure Record where
  key : String
  value : List UInt8
  expires_at : Option ℚ
  deriving DecidableEq, Repr

/-- The logical contents of the `deriva_groups` table. -/
abbrev Store := List Record

/-- A Python `Union[str, bytes]` value accepted by `set`/`setex`. -/
inductive PyValue where
  | str (s : String)
  | bytes (b : List UInt8)
  deriving DecidableEq, Repr

/-- `blob = value if isinstance(value, (bytes, bytearray)) else value.encode()`. -/
def PyValue.toBlob : PyValue → List UInt8
  | .bytes b => b
  | .str s => s.toUTF8.toList

/-- Python's `int()` on a real number: truncation toward zero. -/
def pyInt (q : ℚ) : ℤ :=
  if 0 ≤ q then ⌊q⌋ else ⌈q⌉

/-! ### The glob matcher (`fnmatch.fnmatch`)

`fnmatch` translates the pattern to a regular expression: `*` becomes `.*`,
`?` becomes `.`, and `[...]` becomes a character class.  After `[` (and an
optional leading `!`), a `]` that appears immediately is part of the class;
the class then runs to the next `]`, and if no closing `]` exists the `[`
is matched literally.  Inside a class, `a-b` denotes a range unless the `-`
is first or last.  Matching is whole-string. -/

/-- Scan to the closing `]` of a character class: returns the class content
and the remainder of the pattern after the `]`, or `none` if unclosed. -/
def findClose : List Char → Option (List Char × List Char)
  | [] => none
  | c :: rest =>
    if c = ']' then some ([], rest)
    else (findClose rest).map (fun pr => (c :: pr.1, pr.2))

theorem findClose_rest_lt :
    ∀ (l content rest : List Char), findClose l = some (content, rest) →
      rest.length < l.length := by
  intro l
  induction l with
  | nil => intro content rest h; simp [findClose] at h
  | cons c cs ih =>
    intro content rest h
    by_cases hc : c = ']'
    · rw [findClose, if_pos hc] at h
      simp only [Option.some.injEq, Prod.mk.injEq] at h
      obtain ⟨-, h2⟩ := h
      subst h2
      simp
    · rw [findClose, if_neg hc] at h
      cases hfc : findClose cs with
      | none => rw [hfc] at h; simp at h
      | some pr =>
        obtain ⟨co, re⟩ := pr
        rw [hfc] at h
        simp only [Option.map_some', Option.some.injEq, Prod.mk.injEq] at h
        obtain ⟨-, h2⟩ := h
        have hlen := ih co re hfc
        have h3 : re.length = rest.length := by rw [h2]
        simp only [List.length_cons]
        omega

/-- Parse the body of a `[...]` class that starts right after the `[`:
returns (negated?, class content, pattern remainder), or `none` when the
class is unclosed (in which case `[` is a literal character). -/
def splitClass (l : List Char) : Option (Bool × List Char × List Char) :=
  match l with
  | [] => none
  | c :: rest =>
    if c = '!' then
      match rest with
      | [] => none
      | d :: rest2 =>
        if d = ']' then (findClose rest2).map (fun pr => (true, ']' :: pr.1, pr.2))
        else (findClose rest).map (fun pr => (true, pr.1, pr.2))
    else
      if c = ']' then (findClose rest).map (fun pr => (false, ']' :: pr.1, pr.2))
      else (findClose l).map (fun pr => (false, pr.1, pr.2))

theorem splitClass_rest_lt {l : List Char} {neg : Bool} {content rest : List Char}
    (h : splitClass l = some (neg, content, rest)) : rest.length < l.length := by
  match l with
  | [] => simp [splitClass] at h
  | c :: tail =>
    by_cases hc : c = '!'
    · match tail with
      | [] => simp [splitClass, hc] at h
      | d :: rest2 =>
        by_cases hd : d = ']'
        · simp only [splitClass, if_pos hc, if_pos hd, Option.map_eq_some'] at h
          obtain ⟨pr, hfc, hpr⟩ := h
          have := findClose_rest_lt rest2 pr.1 pr.2 hfc
          have h3 : pr.2.length = rest.length := by
            have h4 : pr.2 = rest := by
              have := congrArg (fun t => t.2.2) hpr
              simpa using this
            rw [h4]
          simp only [List.length_cons]
          omega
        · simp only [splitClass, if_pos hc, if_neg hd, Option.map_eq_some'] at h
          obtain ⟨pr, hfc, hpr⟩ := h
          have := findClose_rest_lt (d :: rest2) pr.1 pr.2 hfc
          have h3 : pr.2.length = rest.length := by
            have h4 : pr.2 = rest := by
              have := congrArg (fun t => t.2.2) hpr
              simpa using this
            rw [h4]
          simp only [List.length_cons] at this ⊢
          omega
    · by_cases hc2 : c = ']'
      · simp only [splitClass, if_neg hc, if_pos hc2, Option.map_eq_some'] at h
        obtain ⟨pr, hfc, hpr⟩ := h
        have := findClose_rest_lt tail pr.1 pr.2 hfc
        have h3 : pr.2.length = rest.length := by
          have h4 : pr.2 = rest := by
            have := congrArg (fun t => t.2.2) hpr
            simpa using this
          rw [h4]
        simp only [List.length_cons]
        omega
      · simp only [splitClass, if_neg hc, if_neg hc2, Option.map_eq_some'] at h
        obtain ⟨pr, hfc, hpr⟩ := h
        have := findClose_rest_lt (c :: tail) pr.1 pr.2 hfc
        have h3 : pr.2.length = rest.length := by
          have h4 : pr.2 = rest := by
            have := congrArg (fun t => t.2.2) hpr
            simpa using this
          rw [h4]
        omega

/-- Interpret class content as (lo, hi) character intervals: `a-b` is a
range when the `-` is neither first nor last, every other character is a
singleton. -/
def classItems : List Char → List (Char × Char)
  | [] => []
  | [a] => [(a, a)]
  | a :: b :: rest =>
    if b = '-' then
      match rest with
      | [] => [(a, a), ('-', '-')]
      | c :: rest2 => (a, c) :: classItems rest2
    else (a, a) :: classItems (b :: rest)
termination_by l => l.length

/-- Does character `c` match the class with the given content and negation
flag? -/
def matchClass (c : Char) (content : List Char) (neg : Bool) : Bool :=
  let inSet := (classItems content).any (fun ab => decide (ab.1 ≤ c) && decide (c ≤ ab.2))
  if neg then !inSet else inSet

/-- Whole-string glob matching of a name against a pattern, both as
character lists (the CPython `fnmatch.translate` semantics). -/
def globMatch (p s : List Char) : Bool :=
  match p, s with
  | [], s => s.isEmpty
  | c :: ps, s =>
    if c = '*' then
      globMatch ps s ||
        (match s with
         | [] => false
         | _ :: cs => globMatch (c :: ps) cs)
    else if c = '?' then
      match s with
      | [] => false
      | _ :: cs => globMatch ps cs
    else if hc : c = '[' then
      match hsc : splitClass ps with
      | some (neg, content, rest) =>
        match s with
        | [] => false
        | ch :: cs => matchClass ch content neg && globMatch rest cs
      | none =>
        match s with
        | [] => false
        | ch :: cs => (ch = '[') && globMatch ps cs
    else
      match s with
      | [] => false
      | ch :: cs => (ch = c) && globMatch ps cs
termination_by p.length + s.length
decreasing_by
  · simp only [List.length_cons]; omega
  · simp only [List.length_cons]; omega
  · simp only [List.length_cons]; omega
  · have := splitClass_rest_lt hsc
    simp only [List.length_cons]
    omega
  · simp only [List.length_cons]; omega
  · simp only [List.length_cons]; omega

/-- `fnmatch.fnmatch(name, pattern)` on a case-sensitive (POSIX) platform,
as used by both backends' `keys`. -/
def fnmatch (name pattern : String) : Bool :=
  globMatch pattern.toList name.toList

/-- Evaluate `pyInt` on a nonnegative rational via the floor
characterization. -/
theorem pyInt_nonneg_eq {q : ℚ} {z : ℤ} (h0 : 0 ≤ q) (h1 : (z : ℚ) ≤ q)
    (h2 : q < z + 1) : pyInt q = z := by
  rw [pyInt, if_pos h0]
  exact Int.floor_eq_iff.mpr ⟨h1, by exact_mod_cast h2⟩

/-- Evaluate `pyInt` on a negative rational via the ceiling
characterization. -/
theorem pyInt_neg_eq {q : ℚ} {z : ℤ} (h0 : ¬ 0 ≤ q) (h1 : (z : ℚ) - 1 < q)
    (h2 : q ≤ z) : pyInt q = z := by
  rw [pyInt, if_neg h0]
  exact Int.ceil_eq_iff.mpr ⟨by exact_mod_cast h1, h2⟩

/-! ### The Embedded-File backend (`SQLiteBackend`)

Each method is transcribed from `sqlite.py`.  The SQL layer is modelled by
its effect on the logical table: `SELECT … WHERE key = ?` plus `fetchone()`
is `findRow` (under primary-key uniqueness the first hit is the only one),
`DELETE … WHERE key = ?` removes every row with that key, and
`INSERT OR REPLACE` removes any row with the key and inserts the new row. -/

namespace SQLiteBackend

/-- `SELECT … FROM deriva_groups WHERE key = ?` + `fetchone()`. -/
def findRow (st : Store) (key : String) : Option Record :=
  st.find? (fun r => r.key == key)

/-- `expires_at is not None and time.time() >= expires_at` — the inline
expiry test shared by `get` and `keys`. -/
def isExpired (now : ℚ) (r : Record) : Bool :=
  match r.expires_at with
  | some e => decide (e ≤ now)
  | none => false

/-- `delete(key)`: `DELETE FROM deriva_groups WHERE key = ?`. -/
def delete (key : String) (st : Store) : Store :=
  st.filter (fun r => r.key != key)

/-- `setex(key, value, ttl)`: `INSERT OR REPLACE` with
`expires_at = time.time() + ttl`. -/
def setex (now : ℚ) (key : String) (value : PyValue) (ttl : ℤ) (st : Store) : Store :=
  ⟨key, value.toBlob, some (now + ttl)⟩ :: st.filter (fun r => r.key != key)

/-- `set(key, value)`: `INSERT OR REPLACE` with `expires_at = NULL`. -/
def set (key : String) (value : PyValue) (st : Store) : Store :=
  ⟨key, value.toBlob, none⟩ :: st.filter (fun r => r.key != key)

/-- `get(key)`: fetch the row; on expiry delete the key and return `None`. -/
def get (now : ℚ) (key : String) (st : Store) : Option (List UInt8) × Store :=
  match findRow st key with
  | none => (none, st)
  | some r =>
    match r.expires_at with
    | some e => if e ≤ now then (none, delete key st) else (some r.value, st)
    | none => (some r.value, st)

/-- The `for key, expires_at in cur:` loop of `keys`, iterating over the
cursor's snapshot of the table while deleting expired rows from the live
table. -/
def keysLoop (now : ℚ) (pattern : String) : List Record → Store → List String × Store
  | [], st => ([], st)
  | r :: rows, st =>
    if isExpired now r then
      keysLoop now pattern rows (delete r.key st)
    else if fnmatch r.key pattern then
      let res := keysLoop now pattern rows st
      (r.key :: res.1, res.2)
    else
      keysLoop now pattern rows st

/-- `keys(pattern)`: `SELECT key, expires_at FROM deriva_groups`, then the
filter/delete loop. -/
def keys (now : ℚ) (pattern : String) (st : Store) : List String × Store :=
  keysLoop now pattern st st

/-- `scan_iter(pattern)`: a generator that yields exactly `keys(pattern)`. -/
def scan_iter (now : ℚ) (pattern : String) (st : Store) : List String × Store :=
  keys now pattern st

/-- `exists(key)`: `return self.get(key) is not None`. -/
def keyExists (now : ℚ) (key : String) (st : Store) : Bool × Store :=
  let res := get now key st
  (res.1.isSome, res.2)

/-- `ttl(key)`: fetch `expires_at` only; `-2` when no row, `-1` when no
expiry, else `int(expires_at - time.time())` clamped to `-2` when
negative.  The method runs no write statement. -/
def ttl (now : ℚ) (key : String) (st : Store) : ℤ × Store :=
  match findRow st key with
  | none => (-2, st)
  | some r =>
    match r.expires_at with
    | none => (-1, st)
    | some e =>
      let remaining := pyInt (e - now)
      (if 0 ≤ remaining then remaining else -2, st)

/-- `close()`: the thread-local connection state is the optional handle
held by the calling thread; `close` closes it (second component: handles
closed by this call) and removes the attribute, and is a no-op when the
thread holds none. -/
def close (conn : Option Nat) : Option Nat × List Nat :=
  match conn with
  | none => (none, [])
  | some h => (none, [h])

end SQLiteBackend

/-! ### The Pooled Network backend (`PostgreSQLBackend`)

Each method is transcribed from `postgresql.py`.  The prepared statements
(`deriva_groups_session_set/get/get_expires/list/delete`) act on the same
logical table; `_pooled_execute_stmt` checkout/commit/checkin discipline
does not change the statement's logical effect, so each method is its
statement's effect.  `value.tobytes()` converts the driver's `memoryview`
of the `bytea` column to `bytes`; on the logical byte content it is the
identity. -/

namespace PostgreSQLBackend

/-- `EXECUTE deriva_groups_session_get(key)` / `…_get_expires(key)` +
`fetchone()`. -/
def findRow (st : Store) (key : String) : Option Record :=
  st.find? (fun r => r.key == key)

/-- `expires_at is not None and time.time() >= expires_at` — the inline
expiry test shared by `get` and `keys`. -/
def isExpired (now : ℚ) (r : Record) : Bool :=
  match r.expires_at with
  | some e => decide (e ≤ now)
  | none => false

/-- `delete(key)`: `EXECUTE deriva_groups_session_delete(key)`. -/
def delete (key : String) (st : Store) : Store :=
  st.filter (fun r => r.key != key)

/-- `setex(key, value, ttl)`: the upsert statement with
`expires_at = time.time() + ttl`. -/
def setex (now : ℚ) (key : String) (value : PyValue) (ttl : ℤ) (st : Store) : Store :=
  ⟨key, value.toBlob, some (now + ttl)⟩ :: st.filter (fun r => r.key != key)

/-- `set(key, value)`: the upsert statement with `expires_at = NULL`. -/
def set (key : String) (value : PyValue) (st : Store) : Store :=
  ⟨key, value.toBlob, none⟩ :: st.filter (fun r => r.key != key)

/-- `get(key)`: fetch the row; on expiry delete the key and return `None`,
else return `value.tobytes()`. -/
def get (now : ℚ) (key : String) (st : Store) : Option (List UInt8) × Store :=
  match findRow st key with
  | none => (none, st)
  | some r =>
    match r.expires_at with
    | some e => if e ≤ now then (none, delete key st) else (some r.value, st)
    | none => (some r.value, st)

/-- The `for key, expires_at in rows:` loop of `keys`, over the fully
fetched `list(cur)` of the list statement. -/
def keysLoop (now : ℚ) (pattern : String) : List Record → Store → List String × Store
  | [], st => ([], st)
  | r :: rows, st =>
    if isExpired now r then
      keysLoop now pattern rows (delete r.key st)
    else if fnmatch r.key pattern then
      let res := keysLoop now pattern rows st
      (r.key :: res.1, res.2)
    else
      keysLoop now pattern rows st

/-- `keys(pattern)`: `EXECUTE deriva_groups_session_list`, then the
filter/delete loop. -/
def keys (now : ℚ) (pattern : String) (st : Store) : List String × Store :=
  keysLoop now pattern st st

/-- `scan_iter(pattern)`: a generator that yields exactly `keys(pattern)`. -/
def scan_iter (now : ℚ) (pattern : String) (st : Store) : List String × Store :=
  keys now pattern st

/-- `exists(key)`: `return self.get(key) is not None`. -/
def keyExists (now : ℚ) (key : String) (st : Store) : Bool × Store :=
  let res := get now key st
  (res.1.isSome, res.2)

/-- `ttl(key)`: fetch `expires_at` only; `-2` when no row, `-1` when no
expiry, else `int(expires_at - time.time())` clamped to `-2` when
negative.  The method runs no write statement. -/
def ttl (now : ℚ) (key : String) (st : Store) : ℤ × Store :=
  match findRow st key with
  | none => (-2, st)
  | some r =>
    match r.expires_at with
    | none => (-1, st)
    | some e =>
      let remaining := pyInt (e - now)
      (if 0 ≤ remaining then remaining else -2, st)

/-- `close()`: the backend state is the optional pool with its member
connections; `close` nulls the pool reference and closes every member
(second component: handles closed by this call); when the pool reference
is already `None` the call is a no-op. -/
def close (pool : Option (List Nat)) : Option (List Nat) × List Nat :=
  match pool with
  | none => (none, [])
  | some conns => (none, conns)

end PostgreSQLBackend

/-! ### Helper lemmas -/

namespace SQLiteBackend

theorem findRow_upsert (st : Store) (k : String) (b : List UInt8) (e : Option ℚ) :
    findRow (⟨k, b, e⟩ :: st.filter (fun r => r.key != k)) k = some ⟨k, b, e⟩ :=
  List.find?_cons_of_pos _ (by simp [findRow])

theorem findRow_delete (st : Store) (k : String) : findRow (delete k st) k = none := by
  rw [findRow, List.find?_eq_none]
  intro r hr
  rw [delete, List.mem_filter] at hr
  simpa using hr.2

theorem delete_of_absent {st : Store} {k : String} (h : findRow st k = none) :
    delete k st = st := by
  rw [delete, List.filter_eq_self]
  intro r hr
  rw [findRow, List.find?_eq_none] at h
  simpa using h r hr

theorem keysLoop_fst (now : ℚ) (pat : String) :
    ∀ (rows : List Record) (st : Store),
      (keysLoop now pat rows st).1
        = (rows.filter (fun r => !isExpired now r && fnmatch r.key pat)).map Record.key := by
  intro rows
  induction rows with
  | nil => intro st; simp [keysLoop]
  | cons r rows ih =>
    intro st
    by_cases he : isExpired now r
    · simp [keysLoop, he, ih]
    · by_cases hm : fnmatch r.key pat
      · simp [keysLoop, he, hm, ih]
      · simp [keysLoop, he, hm, ih]

theorem keysLoop_snd (now : ℚ) (pat : String) :
    ∀ (rows : List Record) (st : Store),
      (keysLoop now pat rows st).2
        = st.filter (fun q => !(rows.any (fun r => isExpired now r && r.key == q.key))) := by
  intro rows
  induction rows with
  | nil => intro st; simp [keysLoop]
  | cons r rows ih =>
    intro st
    by_cases he : isExpired now r
    · rw [keysLoop, if_pos he, ih, delete, List.filter_filter]
      apply List.filter_congr
      intro q _
      have hsymm : (q.key != r.key) = !(r.key == q.key) := by
        rcases eq_or_ne q.key r.key with h | h
        · rw [h]; simp [bne]
        · have h1 : (q.key == r.key) = false := by simpa using h
          have h2 : (r.key == q.key) = false := by simpa using Ne.symm h
          simp [bne, h1, h2]
      simp [he, Bool.and_comm, hsymm]
    · have hstate : (keysLoop now pat (r :: rows) st).2 = (keysLoop now pat rows st).2 := by
        rw [keysLoop, if_neg he]
        by_cases hm : fnmatch r.key pat
        · rw [if_pos hm]
        · rw [if_neg hm]
      rw [hstate, ih]
      apply List.filter_congr
      intro q _
      simp [he]

theorem keys_fst (now : ℚ) (pat : String) (st : Store) :
    (keys now pat st).1
      = (st.filter (fun r => !isExpired now r && fnmatch r.key pat)).map Record.key :=
  keysLoop_fst now pat st st

theorem keys_snd {st : Store} (now : ℚ) (pat : String)
    (wf : (st.map Record.key).Nodup) :
    (keys now pat st).2 = st.filter (fun r => !isExpired now r) := by
  rw [keys, keysLoop_snd]
  apply List.filter_congr
  intro q hq
  by_cases he : isExpired now q
  · have : st.any (fun r => isExpired now r && r.key == q.key) = true :=
      List.any_eq_true.mpr ⟨q, hq, by simp [he]⟩
    simp [this, he]
  · have : st.any (fun r => isExpired now r && r.key == q.key) = false := by
      rw [List.any_eq_false]
      intro r hr
      simp only [Bool.and_eq_true, beq_iff_eq, not_and]
      intro hre hkey
      exact absurd (List.inj_on_of_nodup_map wf hr hq hkey ▸ hre) (by simpa using he)
    simp [this, he]

end SQLiteBackend

theorem pg_findRow_eq : PostgreSQLBackend.findRow = SQLiteBackend.findRow := rfl

theorem pg_isExpired_eq : PostgreSQLBackend.isExpired = SQLiteBackend.isExpired := rfl

theorem pg_delete_eq : PostgreSQLBackend.delete = SQLiteBackend.delete := rfl

theorem pg_setex_eq : PostgreSQLBackend.setex = SQLiteBackend.setex := rfl

theorem pg_set_eq : PostgreSQLBackend.set = SQLiteBackend.set := rfl

theorem pg_get_eq : PostgreSQLBackend.get = SQLiteBackend.get := rfl

theorem pg_keyExists_eq : PostgreSQLBackend.keyExists = SQLiteBackend.keyExists := rfl

theorem pg_ttl_eq : PostgreSQLBackend.ttl = SQLiteBackend.ttl := rfl

theorem pg_keysLoop_eq :
    ∀ (now : ℚ) (pat : String) (rows : List Record) (st : Store),
      PostgreSQLBackend.keysLoop now pat rows st = SQLiteBackend.keysLoop now pat rows st := by
  intro now pat rows
  induction rows with
  | nil => intro st; rfl
  | cons r rows ih =>
    intro st
    rw [PostgreSQLBackend.keysLoop, SQLiteBackend.keysLoop]
    rw [show PostgreSQLBackend.isExpired = SQLiteBackend.isExpired from rfl,
        show PostgreSQLBackend.delete = SQLiteBackend.delete from rfl]
    by_cases he : SQLiteBackend.isExpired now r
    · rw [if_pos he, if_pos he, ih]
    · rw [if_neg he, if_neg he]
      by_cases hm : fnmatch r.key pat
      · rw [if_pos hm, if_pos hm, ih]
      · rw [if_neg hm, if_neg hm, ih]

theorem pg_keys_eq :
    ∀ (now : ℚ) (pat : String) (st : Store),
      PostgreSQLBackend.keys now pat st = SQLiteBackend.keys now pat st := by
  intro now pat st
  rw [PostgreSQLBackend.keys, SQLiteBackend.keys, pg_keysLoop_eq]

theorem pg_scan_iter_eq :
    ∀ (now : ℚ) (pat : String) (st : Store),
      PostgreSQLBackend.scan_iter now pat st = SQLiteBackend.scan_iter now pat st := by
  intro now pat st
  rw [PostgreSQLBackend.scan_iter, SQLiteBackend.scan_iter, pg_keys_eq]

/-! ### Claim theorems -/

/-- C1 counterexample: the claim says a key that exists but is expired
(`expires_at <= now`) gets `ttl = -2`, and that the result is the floor of
the remaining seconds.  With `expires_at = 19/2` and `now = 10` the key is
expired, yet both backends return `0` (Python `int()` truncates
`-1/2` toward zero), not `-2`. -/
theorem ttl_subsecond_expired_counterexample :
    ((19 : ℚ) / 2 ≤ 10)
    ∧ (SQLiteBackend.ttl 10 "k" [⟨"k", [], some (19 / 2)⟩]).1 = 0
    ∧ (PostgreSQLBackend.ttl 10 "k" [⟨"k", [], some (19 / 2)⟩]).1 = 0 := by
  have hp : pyInt ((19 : ℚ) / 2 - 10) = 0 :=
    pyInt_neg_eq (by norm_num) (by norm_num) (by norm_num)
  refine ⟨by norm_num, ?_, ?_⟩ <;>
    simp [SQLiteBackend.ttl, PostgreSQLBackend.ttl, SQLiteBackend.findRow,
      PostgreSQLBackend.findRow, List.find?, hp]

/-- C1 (amended): `ttl(k)` returns `-2` when no row exists, `-1` when the
row has no expiry, and otherwise `int(expires_at - now)` (truncation
toward zero) if that is nonnegative and `-2` if it is negative; the result
is never negative other than the sentinels.  (The original claim fails
only in the window `-1 < expires_at - now <= 0`, where an already-expired
key yields `0` instead of `-2`; for positive remainders truncation and
floor agree.)  Both backends behave identically. -/
theorem ttl_amended :
    ∀ (now : ℚ) (k : String) (st : Store),
      (SQLiteBackend.findRow st k = none → (SQLiteBackend.ttl now k st).1 = -2)
      ∧ (∀ r, SQLiteBackend.findRow st k = some r → r.expires_at = none →
          (SQLiteBackend.ttl now k st).1 = -1)
      ∧ (∀ r e, SQLiteBackend.findRow st k = some r → r.expires_at = some e →
          (SQLiteBackend.ttl now k st).1
            = if 0 ≤ pyInt (e - now) then pyInt (e - now) else -2)
      ∧ ((SQLiteBackend.ttl now k st).1 = -2 ∨ (SQLiteBackend.ttl now k st).1 = -1
          ∨ 0 ≤ (SQLiteBackend.ttl now k st).1)
      ∧ PostgreSQLBackend.ttl now k st = SQLiteBackend.ttl now k st := by
  intro now k st
  refine ⟨?_, ?_, ?_, ?_, congrFun (congrFun (congrFun pg_ttl_eq now) k) st⟩
  · intro h
    simp [SQLiteBackend.ttl, h]
  · intro r hr he
    simp [SQLiteBackend.ttl, hr, he]
  · intro r e hr he
    simp only [SQLiteBackend.ttl, hr, he]
  · cases hr : SQLiteBackend.findRow st k with
    | none => simp [SQLiteBackend.ttl, hr]
    | some r =>
      cases he : r.expires_at with
      | none => simp [SQLiteBackend.ttl, hr, he]
      | some e =>
        simp only [SQLiteBackend.ttl, hr, he]
        by_cases h0 : 0 ≤ pyInt (e - now)
        · right; right; simpa [if_pos h0] using h0
        · left; simp [if_neg h0]

/-- C1 witness: on a store whose only row for `"k"` has no expiry, the
amended theorem yields `ttl = -1`. -/
theorem ttl_amended_witness :
    (SQLiteBackend.ttl 10 "k" [⟨"k", [], none⟩]).1 = -1 :=
  (ttl_amended 10 "k" [⟨"k", [], none⟩]).2.1 ⟨"k", [], none⟩
    (by simp [SQLiteBackend.findRow, List.find?]) rfl

/-- C2 counterexample: the claim says `ttl(k)` on an expired record
deletes it before returning `-2`.  With `expires_at = 8 <= now = 10` both
backends return `-2` but leave the record in the store untouched (the
method runs only a `SELECT`). -/
theorem ttl_lazy_delete_counterexample :
    ((8 : ℚ) ≤ 10)
    ∧ (SQLiteBackend.ttl 10 "k" [⟨"k", [], some 8⟩]).1 = -2
    ∧ (SQLiteBackend.ttl 10 "k" [⟨"k", [], some 8⟩]).2 = [⟨"k", [], some 8⟩]
    ∧ (PostgreSQLBackend.ttl 10 "k" [⟨"k", [], some 8⟩]).2 = [⟨"k", [], some 8⟩] := by
  have hp : pyInt ((8 : ℚ) - 10) = -2 :=
    pyInt_neg_eq (by norm_num) (by norm_num) (by norm_num)
  refine ⟨by norm_num, ?_, ?_, ?_⟩ <;>
    simp [SQLiteBackend.ttl, PostgreSQLBackend.ttl, SQLiteBackend.findRow,
      PostgreSQLBackend.findRow, List.find?, hp]

/-- C2 (amended): `ttl` performs no deletion at all — in both backends it
leaves the store exactly as it found it, so an expired record is still
present after `ttl` returns `-2`.  (Unlike `get`, neither backend's `ttl`
issues a delete.) -/
theorem ttl_never_mutates :
    ∀ (now : ℚ) (k : String) (st : Store),
      (SQLiteBackend.ttl now k st).2 = st ∧ (PostgreSQLBackend.ttl now k st).2 = st := by
  intro now k st
  have h : (SQLiteBackend.ttl now k st).2 = st := by
    cases hr : SQLiteBackend.findRow st k with
    | none => simp [SQLiteBackend.ttl, hr]
    | some r =>
      cases he : r.expires_at with
      | none => simp [SQLiteBackend.ttl, hr, he]
      | some e => simp [SQLiteBackend.ttl, hr, he]
  exact ⟨h, by rw [pg_ttl_eq]; exact h⟩

/-- C3: on every store state, key, value, ttl argument and pattern, at
every time, the Embedded-File backend (`SQLiteBackend`) and the Pooled
Network backend (`PostgreSQLBackend`) return the same results and leave
the same logical record set, for all eight store operations. -/
theorem backends_equivalent :
    ∀ (now : ℚ) (st : Store) (k : String) (v : PyValue) (t : ℤ) (p : String),
      PostgreSQLBackend.set k v st = SQLiteBackend.set k v st
      ∧ PostgreSQLBackend.setex now k v t st = SQLiteBackend.setex now k v t st
      ∧ PostgreSQLBackend.get now k st = SQLiteBackend.get now k st
      ∧ PostgreSQLBackend.delete k st = SQLiteBackend.delete k st
      ∧ PostgreSQLBackend.keyExists now k st = SQLiteBackend.keyExists now k st
      ∧ PostgreSQLBackend.ttl now k st = SQLiteBackend.ttl now k st
      ∧ PostgreSQLBackend.keys now p st = SQLiteBackend.keys now p st
      ∧ PostgreSQLBackend.scan_iter now p st = SQLiteBackend.scan_iter now p st := by
  intro now st k v t p
  exact ⟨rfl, rfl, rfl, rfl, rfl, rfl, pg_keys_eq now p st, pg_scan_iter_eq now p st⟩

/-- C4: after `set(k, v)` with byte value `v` — over any prior store,
including one holding an entry written by `setex` — `get(k)` returns
exactly `v` byte-for-byte (and leaves the store unchanged), and `ttl(k)`
returns `-1` because the upsert wrote `expires_at = NULL`.  Both backends. -/
theorem set_get_roundtrip :
    ∀ (now : ℚ) (st : Store) (k : String) (b : List UInt8),
      SQLiteBackend.get now k (SQLiteBackend.set k (.bytes b) st)
          = (some b, SQLiteBackend.set k (.bytes b) st)
      ∧ (SQLiteBackend.ttl now k (SQLiteBackend.set k (.bytes b) st)).1 = -1
      ∧ PostgreSQLBackend.get now k (PostgreSQLBackend.set k (.bytes b) st)
          = (some b, PostgreSQLBackend.set k (.bytes b) st)
      ∧ (PostgreSQLBackend.ttl now k (PostgreSQLBackend.set k (.bytes b) st)).1 = -1 := by
  intro now st k b
  have hrow : SQLiteBackend.findRow (SQLiteBackend.set k (.bytes b) st) k
      = some ⟨k, b, none⟩ :=
    SQLiteBackend.findRow_upsert st k b none
  have hget : SQLiteBackend.get now k (SQLiteBackend.set k (.bytes b) st)
      = (some b, SQLiteBackend.set k (.bytes b) st) := by
    simp [SQLiteBackend.get, hrow]
  have httl : (SQLiteBackend.ttl now k (SQLiteBackend.set k (.bytes b) st)).1 = -1 := by
    simp [SQLiteBackend.ttl, hrow]
  exact ⟨hget, httl, by rw [pg_get_eq, pg_set_eq]; exact hget,
    by rw [pg_ttl_eq, pg_set_eq]; exact httl⟩

/-- C5: `setex(k, v, t)` with non-positive `t` writes
`expires_at = now + t <= now`, so at any time `now2 >= now` a `get(k)`
finds the entry expired: it returns absent, deletes the entry as a side
effect, and `exists(k)` is false — immediately, with no waiting.  Both
backends. -/
theorem setex_nonpositive_expired :
    ∀ (now now2 : ℚ) (st : Store) (k : String) (v : PyValue) (t : ℤ),
      t ≤ 0 → now ≤ now2 →
      SQLiteBackend.get now2 k (SQLiteBackend.setex now k v t st)
          = (none, SQLiteBackend.delete k (SQLiteBackend.setex now k v t st))
      ∧ (SQLiteBackend.keyExists now2 k (SQLiteBackend.setex now k v t st)).1 = false
      ∧ PostgreSQLBackend.get now2 k (PostgreSQLBackend.setex now k v t st)
          = (none, PostgreSQLBackend.delete k (PostgreSQLBackend.setex now k v t st))
      ∧ (PostgreSQLBackend.keyExists now2 k (PostgreSQLBackend.setex now k v t st)).1
          = false := by
  intro now now2 st k v t ht hnow
  have hrow : SQLiteBackend.findRow (SQLiteBackend.setex now k v t st) k
      = some ⟨k, v.toBlob, some (now + t)⟩ :=
    SQLiteBackend.findRow_upsert st k v.toBlob (some (now + t))
  have hexp : now + (t : ℚ) ≤ now2 := by
    have : (t : ℚ) ≤ 0 := by exact_mod_cast ht
    linarith
  have hget : SQLiteBackend.get now2 k (SQLiteBackend.setex now k v t st)
      = (none, SQLiteBackend.delete k (SQLiteBackend.setex now k v t st)) := by
    simp [SQLiteBackend.get, hrow, hexp]
  have hex : (SQLiteBackend.keyExists now2 k (SQLiteBackend.setex now k v t st)).1
      = false := by
    simp [SQLiteBackend.keyExists, hget]
  exact ⟨hget, hex,
    by rw [pg_get_eq, pg_setex_eq, pg_delete_eq]; exact hget,
    by rw [pg_keyExists_eq, pg_setex_eq]; exact hex⟩

/-- C5 witness: `setex("g:1", bytes [1], -1)` at time 5, read back at the
same time 5, returns absent and has deleted the entry. -/
theorem setex_nonpositive_expired_witness :
    SQLiteBackend.get 5 "g:1" (SQLiteBackend.setex 5 "g:1" (.bytes [1]) (-1) [])
        = (none, SQLiteBackend.delete "g:1" (SQLiteBackend.setex 5 "g:1" (.bytes [1]) (-1) []))
    ∧ (SQLiteBackend.keyExists 5 "g:1" (SQLiteBackend.setex 5 "g:1" (.bytes [1]) (-1) [])).1
        = false
    ∧ PostgreSQLBackend.get 5 "g:1" (PostgreSQLBackend.setex 5 "g:1" (.bytes [1]) (-1) [])
        = (none, PostgreSQLBackend.delete "g:1" (PostgreSQLBackend.setex 5 "g:1" (.bytes [1]) (-1) []))
    ∧ (PostgreSQLBackend.keyExists 5 "g:1" (PostgreSQLBackend.setex 5 "g:1" (.bytes [1]) (-1) [])).1
        = false :=
  setex_nonpositive_expired 5 5 [] "g:1" (.bytes [1]) (-1) (by norm_num) le_rfl

/-- C7: `exists(k)` returns true exactly when `get(k)` on the same state
returns a non-absent value, and it leaves the store in exactly the state
`get(k)` leaves it in (the same lazy deletion of an expired record), in
both backends — the method is literally `get(key) is not None`. -/
theorem exists_iff_get :
    ∀ (now : ℚ) (k : String) (st : Store),
      ((SQLiteBackend.keyExists now k st).1 = true ↔ (SQLiteBackend.get now k st).1 ≠ none)
      ∧ (SQLiteBackend.keyExists now k st).2 = (SQLiteBackend.get now k st).2
      ∧ ((PostgreSQLBackend.keyExists now k st).1 = true
          ↔ (PostgreSQLBackend.get now k st).1 ≠ none)
      ∧ (PostgreSQLBackend.keyExists now k st).2 = (PostgreSQLBackend.get now k st).2 := by
  intro now k st
  have h1 : ((SQLiteBackend.keyExists now k st).1 = true
      ↔ (SQLiteBackend.get now k st).1 ≠ none) := by
    rw [SQLiteBackend.keyExists]
    exact Option.isSome_iff_ne_none
  refine ⟨h1, rfl, ?_, rfl⟩
  rw [pg_keyExists_eq, pg_get_eq]
  exact h1

/-- C6: under primary-key uniqueness, `keys(p)` returns exactly the keys
of records that are non-expired at scan time and whose key matches the
glob pattern `p`; every record observed expired during the scan is deleted
(the resulting store is exactly the non-expired records) and excluded, so
an expired key is never returned.  The pooled backend's `keys` agrees. -/
theorem keys_glob_spec :
    ∀ (now : ℚ) (st : Store) (p : String),
      (st.map Record.key).Nodup →
      (∀ k, k ∈ (SQLiteBackend.keys now p st).1
          ↔ ∃ r ∈ st, r.key = k ∧ SQLiteBackend.isExpired now r = false
              ∧ fnmatch k p = true)
      ∧ (SQLiteBackend.keys now p st).2
          = st.filter (fun r => !SQLiteBackend.isExpired now r)
      ∧ PostgreSQLBackend.keys now p st = SQLiteBackend.keys now p st := by
  intro now st p wf
  refine ⟨?_, SQLiteBackend.keys_snd now p wf, pg_keys_eq now p st⟩
  intro k
  rw [SQLiteBackend.keys_fst]
  constructor
  · intro hk
    obtain ⟨r, hr, hrk⟩ := List.mem_map.mp hk
    rw [List.mem_filter] at hr
    obtain ⟨hmem, hcond⟩ := hr
    simp only [Bool.and_eq_true, Bool.not_eq_true'] at hcond
    exact ⟨r, hmem, hrk, hcond.1, hrk ▸ hcond.2⟩
  · rintro ⟨r, hmem, hrk, hexp, hmatch⟩
    refine List.mem_map.mpr ⟨r, List.mem_filter.mpr ⟨hmem, ?_⟩, hrk⟩
    simp only [Bool.and_eq_true, Bool.not_eq_true']
    exact ⟨hexp, hrk ▸ hmatch⟩

/-- C6 witness: with live keys `a:1`, `a:2`, `b:1`, `keys("a:*")` contains
`a:1` and not `b:1`, and deletes nothing since nothing is expired. -/
theorem keys_glob_spec_witness :
    ("a:1" ∈ (SQLiteBackend.keys 5 "a:*"
        [⟨"a:1", [], none⟩, ⟨"a:2", [], none⟩, ⟨"b:1", [], none⟩]).1)
    ∧ ¬ ("b:1" ∈ (SQLiteBackend.keys 5 "a:*"
        [⟨"a:1", [], none⟩, ⟨"a:2", [], none⟩, ⟨"b:1", [], none⟩]).1) := by
  have wf : (([⟨"a:1", [], none⟩, ⟨"a:2", [], none⟩, ⟨"b:1", [], none⟩] : Store).map
      Record.key).Nodup := by
    simp [List.nodup_cons]
  have h := keys_glob_spec 5 [⟨"a:1", [], none⟩, ⟨"a:2", [], none⟩, ⟨"b:1", [], none⟩]
    "a:*" wf
  constructor
  · exact (h.1 "a:1").mpr ⟨⟨"a:1", [], none⟩, by simp, rfl, rfl,
      by simp [fnmatch, globMatch]⟩
  · intro hb
    obtain ⟨r, hmem, hrk, -, hmatch⟩ := (h.1 "b:1").mp hb
    have : fnmatch "b:1" "a:*" = false := by simp [fnmatch, globMatch]
    rw [this] at hmatch
    exact Bool.false_ne_true hmatch

/-- C8: `delete(k)` is unconditional and idempotent: afterwards
`exists(k)` is false and `ttl(k) = -2` whatever the prior state; deleting
a key with no record leaves the store unchanged (and raises no error —
the operation is total); deleting twice equals deleting once.  Both
backends. -/
theorem delete_spec :
    ∀ (now : ℚ) (st : Store) (k : String),
      (SQLiteBackend.keyExists now k (SQLiteBackend.delete k st)).1 = false
      ∧ (SQLiteBackend.ttl now k (SQLiteBackend.delete k st)).1 = -2
      ∧ SQLiteBackend.delete k (SQLiteBackend.delete k st) = SQLiteBackend.delete k st
      ∧ (SQLiteBackend.findRow st k = none → SQLiteBackend.delete k st = st)
      ∧ PostgreSQLBackend.delete k st = SQLiteBackend.delete k st := by
  intro now st k
  have hrow := SQLiteBackend.findRow_delete st k
  refine ⟨?_, ?_, ?_, SQLiteBackend.delete_of_absent, rfl⟩
  · simp [SQLiteBackend.keyExists, SQLiteBackend.get, hrow]
  · simp [SQLiteBackend.ttl, hrow]
  · exact SQLiteBackend.delete_of_absent (SQLiteBackend.findRow_delete st k)

/-- C8 witness: deleting the never-created key `"g:2"` from the empty
store is a no-op, and afterwards `ttl` is `-2` and `exists` is false. -/
theorem delete_spec_witness :
    SQLiteBackend.delete "g:2" [] = []
    ∧ (SQLiteBackend.ttl 5 "g:2" (SQLiteBackend.delete "g:2" [])).1 = -2
    ∧ (SQLiteBackend.keyExists 5 "g:2" (SQLiteBackend.delete "g:2" [])).1 = false :=
  ⟨(delete_spec 5 [] "g:2").2.2.2.1 rfl, (delete_spec 5 [] "g:2").2.1,
    (delete_spec 5 [] "g:2").1⟩

/-- C9: `close()` is idempotent and total (never raises).  On the
embedded backend the state is the calling thread's optional connection:
the first close closes exactly that connection and clears the attribute,
and closing with no connection (including any repeat close) is a no-op.
On the pooled backend the state is the optional pool: the first close
nulls the pool reference and closes every member connection, and any
further close is a no-op. -/
theorem close_idempotent :
    (∀ c : Option Nat, SQLiteBackend.close ((SQLiteBackend.close c).1) = (none, []))
    ∧ (∀ h : Nat, SQLiteBackend.close (some h) = (none, [h]))
    ∧ SQLiteBackend.close none = (none, [])
    ∧ (∀ p : Option (List Nat),
        PostgreSQLBackend.close ((PostgreSQLBackend.close p).1) = (none, []))
    ∧ (∀ cs : List Nat, PostgreSQLBackend.close (some cs) = (none, cs))
    ∧ PostgreSQLBackend.close none = (none, []) := by
  refine ⟨fun c => ?_, fun h => rfl, rfl, fun p => ?_, fun cs => rfl, rfl⟩
  · cases c <;> rfl
  · cases p <;> rfl

/-- C10: under primary-key uniqueness, `keys(p)` (and `scan(p)`, which
yields exactly `keys(p)`) deletes every record expired at scan time —
matching the pattern or not, since the expiry check precedes the pattern
test — leaving exactly the non-expired records, so no expired record
remains afterwards.  Both backends. -/
theorem keys_purges_all_expired :
    ∀ (now : ℚ) (st : Store) (p : String),
      (st.map Record.key).Nodup →
      (SQLiteBackend.keys now p st).2
          = st.filter (fun r => !SQLiteBackend.isExpired now r)
      ∧ (∀ r ∈ (SQLiteBackend.keys now p st).2, SQLiteBackend.isExpired now r = false)
      ∧ SQLiteBackend.scan_iter now p st = SQLiteBackend.keys now p st
      ∧ (PostgreSQLBackend.keys now p st).2
          = st.filter (fun r => !SQLiteBackend.isExpired now r) := by
  intro now st p wf
  have hsnd := SQLiteBackend.keys_snd now p wf
  refine ⟨hsnd, ?_, rfl, by rw [pg_keys_eq]; exact hsnd⟩
  intro r hr
  rw [hsnd, List.mem_filter] at hr
  simpa using hr.2

/-- C10 witness: scanning with the non-matching pattern `"zzz"` still
deletes the expired record `⟨"a", [], some 3⟩` at time 5, leaving only the
live record. -/
theorem keys_purges_all_expired_witness :
    (SQLiteBackend.keys 5 "zzz" [⟨"a", [], some 3⟩, ⟨"b", [], none⟩]).2
      = [⟨"b", [], none⟩] := by
  have wf : (([⟨"a", [], some 3⟩, ⟨"b", [], none⟩] : Store).map Record.key).Nodup := by
    simp [List.nodup_cons]
  have h := (keys_purges_all_expired 5 [⟨"a", [], some 3⟩, ⟨"b", [], none⟩] "zzz" wf).1
  rw [h]
  have e1 : SQLiteBackend.isExpired 5 ⟨"a", [], some 3⟩ = true := by
    simp [SQLiteBackend.isExpired]
    norm_num
  have e2 : SQLiteBackend.isExpired 5 ⟨"b", [], none⟩ = false := rfl
  simp [List.filter_cons, e1, e2, List.filter_nil]
